import Mathlib

/-!
Verification of the builtin-function bridge of the pattern-language plugin
(`pl_builtin_functions.cpp`).  The definitions below are a shallow embedding of
the C++ source: machine integers are modelled as `Nat`/`Int` with explicit
`% 2^w` where overflow matters, the host memory facade is a function
`Nat → Nat` whose reads are truncated to bytes, and every fallible builtin
returns `Except String _` where the `error` case is the evaluation-abort
channel carrying its message.
-/

/-- The tagged literal value exchanged between the DSL evaluator and the
builtins (`pl::Token::Literal`).  The floating-point variant is modelled with
rationals; the pattern-reference variant is not needed by any claim. -/
inductive Literal where
  | unsignedInt : Nat → Literal
  | signedInt : Int → Literal
  | floatingPoint : ℚ → Literal
  | boolean : Bool → Literal
  | charLit : Char → Literal
  | str : String → Literal
deriving DecidableEq

/-- Arity constraints of `pl::api::FunctionParameterCount`. -/
inductive Arity where
  | noArgs : Arity
  | exactly : Nat → Arity
  | atLeast : Nat → Arity
  | moreThan : Nat → Arity
deriving DecidableEq

/-- Trust tier: functions registered with `addFunction` are standard,
`addDangerousFunction` marks the dangerous tier. -/
inductive Trust where
  | standard : Trust
  | dangerous : Trust
deriving DecidableEq

/-- One registry entry: namespace path, function name, arity, trust tier. -/
structure FnReg where
  ns : List String
  fname : String
  arity : Arity
  trust : Trust
deriving DecidableEq

/-- The full registration list built by `registerPatternLanguageFunctions`,
transcribed in source order. -/
def registrations : List FnReg :=
  [ ⟨["builtin", "std"], "print", .moreThan 0, .standard⟩
  , ⟨["builtin", "std"], "format", .moreThan 0, .standard⟩
  , ⟨["builtin", "std"], "env", .exactly 1, .standard⟩
  , ⟨["builtin", "std"], "sizeof_pack", .atLeast 0, .standard⟩
  , ⟨["builtin", "std"], "error", .exactly 1, .standard⟩
  , ⟨["builtin", "std"], "warning", .exactly 1, .standard⟩
  , ⟨["builtin", "std", "mem"], "base_address", .noArgs, .standard⟩
  , ⟨["builtin", "std", "mem"], "size", .noArgs, .standard⟩
  , ⟨["builtin", "std", "mem"], "find_sequence_in_range", .moreThan 3, .standard⟩
  , ⟨["builtin", "std", "mem"], "read_unsigned", .exactly 2, .standard⟩
  , ⟨["builtin", "std", "mem"], "read_signed", .exactly 2, .standard⟩
  , ⟨["builtin", "std", "mem"], "read_string", .exactly 2, .standard⟩
  , ⟨["builtin", "std", "string"], "length", .exactly 1, .standard⟩
  , ⟨["builtin", "std", "string"], "at", .exactly 2, .standard⟩
  , ⟨["builtin", "std", "string"], "substr", .exactly 3, .standard⟩
  , ⟨["builtin", "std", "string"], "parse_int", .exactly 2, .standard⟩
  , ⟨["builtin", "std", "string"], "parse_float", .exactly 1, .standard⟩
  , ⟨["builtin", "std", "http"], "get", .exactly 1, .dangerous⟩
  , ⟨["builtin", "std", "file"], "open", .exactly 2, .dangerous⟩
  , ⟨["builtin", "std", "file"], "close", .exactly 1, .dangerous⟩
  , ⟨["builtin", "std", "file"], "read", .exactly 2, .dangerous⟩
  , ⟨["builtin", "std", "file"], "write", .exactly 2, .dangerous⟩
  , ⟨["builtin", "std", "file"], "seek", .exactly 2, .dangerous⟩
  , ⟨["builtin", "std", "file"], "size", .exactly 1, .dangerous⟩
  , ⟨["builtin", "std", "file"], "resize", .exactly 2, .dangerous⟩
  , ⟨["builtin", "std", "file"], "flush", .exactly 1, .dangerous⟩
  , ⟨["builtin", "std", "file"], "remove", .exactly 1, .dangerous⟩
  , ⟨["builtin", "std", "math"], "floor", .exactly 1, .standard⟩
  , ⟨["builtin", "std", "math"], "ceil", .exactly 1, .standard⟩
  , ⟨["builtin", "std", "math"], "round", .exactly 1, .standard⟩
  , ⟨["builtin", "std", "math"], "trunc", .exactly 1, .standard⟩
  , ⟨["builtin", "std", "math"], "log10", .exactly 1, .standard⟩
  , ⟨["builtin", "std", "math"], "log2", .exactly 1, .standard⟩
  , ⟨["builtin", "std", "math"], "ln", .exactly 1, .standard⟩
  , ⟨["builtin", "std", "math"], "fmod", .exactly 2, .standard⟩
  , ⟨["builtin", "std", "math"], "pow", .exactly 2, .standard⟩
  , ⟨["builtin", "std", "math"], "sqrt", .exactly 1, .standard⟩
  , ⟨["builtin", "std", "math"], "cbrt", .exactly 1, .standard⟩
  , ⟨["builtin", "std", "math"], "sin", .exactly 1, .standard⟩
  , ⟨["builtin", "std", "math"], "cos", .exactly 1, .standard⟩
  , ⟨["builtin", "std", "math"], "tan", .exactly 1, .standard⟩
  , ⟨["builtin", "std", "math"], "asin", .exactly 1, .standard⟩
  , ⟨["builtin", "std", "math"], "acos", .exactly 1, .standard⟩
  , ⟨["builtin", "std", "math"], "atan", .exactly 1, .standard⟩
  , ⟨["builtin", "std", "math"], "atan", .exactly 1, .standard⟩
  , ⟨["builtin", "std", "math"], "sinh", .exactly 1, .standard⟩
  , ⟨["builtin", "std", "math"], "cosh", .exactly 1, .standard⟩
  , ⟨["builtin", "std", "math"], "tanh", .exactly 1, .standard⟩
  , ⟨["builtin", "std", "math"], "asinh", .exactly 1, .standard⟩
  , ⟨["builtin", "std", "math"], "acosh", .exactly 1, .standard⟩
  , ⟨["builtin", "std", "math"], "atanh", .exactly 1, .standard⟩
  ]

/-- `std::sizeof_pack`: returns the number of arguments as an unsigned
integer literal; its body has no abort path and no effect. -/
def sizeof_pack (params : List Literal) : Except String (Option Literal) :=
  .ok (some (.unsignedInt params.length))

/-! ## Host memory facade

`Evaluator::readData(address, buffer, length)` fills `buffer` with `length`
bytes of host memory.  Memory is modelled as `Nat → Nat`; since the facade
hands back bytes, each read is truncated to `% 256`. -/

/-- The `length` bytes of host memory starting at `offset`, as read through
the facade into a byte buffer. -/
def readBytesList (mem : Nat → Nat) (offset len : Nat) : List Nat :=
  (List.range len).map fun i => mem (offset + i) % 256

/-- Validation of the trailing byte arguments of `find_sequence_in_range`:
each argument with parameter index `i ≥ 3` must be `≤ 0xFF`, otherwise the
call aborts naming the offending index; valid bytes are truncated to `u8`. -/
def checkSeq : Nat → List Nat → Except String (List Nat)
  | _, [] => .ok []
  | i, b :: bs =>
    if b > 0xFF then
      .error ("byte #" ++ toString i ++ " value out of range")
    else
      match checkSeq (i + 1) bs with
      | .ok rest => .ok (b % 256 :: rest)
      | .error e => .error e

/-- The scan loop of `find_sequence_in_range`.  The C++ loop runs
`for (u64 offset = offsetFrom; offset < bound; offset++)` with the fixed
bound `endOffset - sequence.size()` (a u64 subtraction); it executes at most
`bound - offsetFrom` iterations, which is the structural fuel here.  The
`occurrences` counter is a `u32`, so its increment wraps at `2^32`. -/
def findLoop (mem : Nat → Nat) (seq : List Nat) (occurrenceIndex : Nat) :
    Nat → Nat → Nat → Int
  | 0, _, _ => -1
  | fuel + 1, occurrences, offset =>
    if readBytesList mem offset seq.length = seq then
      if occurrences < occurrenceIndex then
        findLoop mem seq occurrenceIndex fuel ((occurrences + 1) % 2 ^ 32) (offset + 1)
      else
        Int.ofNat offset
    else
      findLoop mem seq occurrenceIndex fuel occurrences (offset + 1)

/-- Wrapping u64 subtraction `a - b` for `a < 2^64`. -/
def u64sub (a b : Nat) : Nat :=
  (a + 2 ^ 64 - b % 2 ^ 64) % 2 ^ 64

/-- `std.mem.find_sequence_in_range(occurrenceIndex, offsetFrom, offsetTo,
bytes...)`.  `dataSize` is the host's `getDataSize()` (a u64); the offsets
arrive as u128 literals and are truncated to u64 where the source assigns
them to u64 variables.  The loop bound is the u64 expression
`endOffset - sequence.size()`. -/
def find_sequence_in_range (mem : Nat → Nat) (dataSize : Nat)
    (occurrenceIndex offsetFrom offsetTo : Nat) (seqArgs : List Nat) :
    Except String Int :=
  match checkSeq 3 seqArgs with
  | .error e => .error e
  | .ok seq =>
    let bufferSize := dataSize % 2 ^ 64
    let endOffset :=
      if offsetTo ≤ offsetFrom then bufferSize
      else min bufferSize (offsetTo % 2 ^ 64)
    let bound := u64sub endOffset seq.length
    let start := offsetFrom % 2 ^ 64
    .ok (findLoop mem seq occurrenceIndex (bound - start) 0 start)

/-- The candidate start offsets in `[offset, bound)` at which the bytes read
from memory equal the target sequence. -/
def matchOffsets (mem : Nat → Nat) (seq : List Nat) (offset bound : Nat) :
    List Nat :=
  (List.range' offset (bound - offset)).filter
    fun o => decide (readBytesList mem o seq.length = seq)

/-- Modelled from the spec's words (for refinement, to compare against the
source-derived `find_sequence_in_range`): effective end offset is `dataSize`
if `offsetTo ≤ offsetFrom`, else `min dataSize offsetTo`; candidate start
offsets run from `offsetFrom` up to `endOffset − sequenceLength` (exclusive);
the result is the start offset of the match with ordinal `occurrenceIndex`,
or `-1` if fewer matches exist. -/
def findSpec (mem : Nat → Nat) (dataSize : Nat)
    (occurrenceIndex offsetFrom offsetTo : Nat) (seq : List Nat) : Int :=
  let endOffset :=
    if offsetTo ≤ offsetFrom then dataSize else min dataSize offsetTo
  match (matchOffsets mem seq offsetFrom (endOffset - seq.length)).get?
      occurrenceIndex with
  | some o => Int.ofNat o
  | none => -1

/-- Concrete host memory holding the bytes 0xAA 0xBB at offsets 4 and 5 of a
7-byte buffer. -/
def mem7 : Nat → Nat := fun i => [0, 0, 0, 0, 0xAA, 0xBB, 0].getD i 0

/-! ## C2: std.string.at -/

/-- C++ `std::string` subscript: indexes up to and including the length,
where `s[s.length()]` is the terminating NUL character. -/
def cppStringGet (s : List Char) (i : Nat) : Char := s.getD i (Char.ofNat 0)

/-- `std.string.at(string, index)`: the index is a signed 128-bit literal;
its absolute value (both the macOS bit-trick branch and `std::abs` agree away
from the i128 minimum) is compared against the length, and a negative index
counts from the end via `string[length - -index]`. -/
def string_at (s : List Char) (i : Int) : Except String Char :=
  if i.natAbs > s.length then .error "character index out of range"
  else if 0 ≤ i then .ok (cppStringGet s i.toNat)
  else .ok (cppStringGet s (s.length - i.natAbs))

def helloChars : List Char := ['h', 'e', 'l', 'l', 'o']

/-! ## C9: parse_int / parse_float -/

/-- Value of a character as a digit, following strtoll: decimal digits, then
letters of either case counting from ten. -/
def digitVal (c : Char) : Option Nat :=
  if '0' ≤ c ∧ c ≤ '9' then some (c.toNat - 48)
  else if 'a' ≤ c ∧ c ≤ 'z' then some (c.toNat - 97 + 10)
  else if 'A' ≤ c ∧ c ≤ 'Z' then some (c.toNat - 65 + 10)
  else none

/-- Greedy digit accumulation in the given base; stops at the first character
that is not a digit of the base. -/
def parseDigits (base : Nat) : List Char → Nat → Nat
  | [], acc => acc
  | c :: cs, acc =>
    match digitVal c with
    | some d => if d < base then parseDigits base cs (acc * base + d) else acc
    | none => acc

/-- Modelled from the spec: `std::strtoll` (libc, outside these sources) —
skips leading whitespace, parses an optional sign and then digits of the
given base (base 16 also accepts a 0x prefix; base 0 auto-detects 0x/0
prefixes), yields 0 when no digit can be parsed, and clamps to the long long
range.  errno and the hex-float back-off corner are not needed by any
claim and are omitted. -/
def strtollModel (s : List Char) (base : Nat) : Int :=
  if base = 1 ∨ base > 36 then 0
  else
    let s1 := s.dropWhile fun c =>
      c = ' ' ∨ c = '\t' ∨ c = '\n' ∨ c = '\x0d' ∨ c = '\x0b' ∨ c = '\x0c'
    let signAndRest : Bool × List Char :=
      match s1 with
      | '-' :: rest => (true, rest)
      | '+' :: rest => (false, rest)
      | rest => (false, rest)
    let s2 := signAndRest.2
    let effBase :=
      if base = 0 then
        match s2 with
        | '0' :: 'x' :: _ => 16
        | '0' :: 'X' :: _ => 16
        | '0' :: _ => 8
        | _ => 10
      else base
    let s3 :=
      if effBase = 16 then
        match s2 with
        | '0' :: 'x' :: rest => rest
        | '0' :: 'X' :: rest => rest
        | _ => s2
      else s2
    let v : Int :=
      if signAndRest.1 then -(parseDigits effBase s3 0 : Int)
      else (parseDigits effBase s3 0 : Int)
    max (-(2 ^ 63)) (min (2 ^ 63 - 1) v)

/-- `std.string.parse_int(string, base)`: converts via strtoll and returns
the result as a signed literal; there is no abort path. -/
def parse_int (s : String) (base : Nat) : Except String (Option Literal) :=
  .ok (some (.signedInt (strtollModel s.toList base)))

/-- Exponent part of strtod: optional sign then decimal digits. -/
def expParse (cs : List Char) : Int :=
  match cs with
  | '-' :: rest => -(parseDigits 10 (rest.takeWhile Char.isDigit) 0 : Int)
  | '+' :: rest => (parseDigits 10 (rest.takeWhile Char.isDigit) 0 : Int)
  | rest => (parseDigits 10 (rest.takeWhile Char.isDigit) 0 : Int)

/-- Modelled from the spec: `std::strtod` (libc, outside these sources) —
skips whitespace, parses an optional sign, decimal digits with optional
fraction and exponent, and yields 0.0 when nothing parses.  The value is kept
as an exact rational; rounding to the nearest double, hex floats and
inf/nan forms are outside the model. -/
def strtodModel (s : List Char) : ℚ :=
  let s1 := s.dropWhile fun c =>
    c = ' ' ∨ c = '\t' ∨ c = '\n' ∨ c = '\x0d' ∨ c = '\x0b' ∨ c = '\x0c'
  let signAndRest : Bool × List Char :=
    match s1 with
    | '-' :: rest => (true, rest)
    | '+' :: rest => (false, rest)
    | rest => (false, rest)
  let s2 := signAndRest.2
  let intDigits := s2.takeWhile Char.isDigit
  let s3 := s2.dropWhile Char.isDigit
  let fracParts : List Char × List Char :=
    match s3 with
    | '.' :: rest => (rest.takeWhile Char.isDigit, rest.dropWhile Char.isDigit)
    | _ => ([], s3)
  if intDigits = [] ∧ fracParts.1 = [] then 0
  else
    let mant : ℚ := (parseDigits 10 intDigits 0 : ℚ) +
      (parseDigits 10 fracParts.1 0 : ℚ) / ((10 : ℚ) ^ fracParts.1.length)
    let e : Int :=
      match fracParts.2 with
      | 'e' :: rest => expParse rest
      | 'E' :: rest => expParse rest
      | _ => 0
    let v := mant * (10 : ℚ) ^ e
    if signAndRest.1 then -v else v

/-- `std.string.parse_float(string)`: converts via strtod and returns the
result as a floating-point literal; there is no abort path. -/
def parse_float (s : String) : Except String (Option Literal) :=
  .ok (some (.floatingPoint (strtodModel s.toList)))

/-! ## C8: read_signed -/

/-- Value of a little-endian byte list. -/
def leValueList : List Nat → Nat
  | [] => 0
  | b :: bs => b + 256 * leValueList bs

/-- The `n` little-endian base-256 digits of `x`. -/
def toLEBytes : Nat → Nat → List Nat
  | _, 0 => []
  | x, n + 1 => x % 256 :: toLEBytes (x / 256) n

/-- Modelled from the spec: `hex::signExtend` (a helper header outside these
sources) sign-extends the low `numBits` bits of a raw buffer value to the
full 128-bit signed width. -/
def signExtend (numBits : Nat) (x : Nat) : Int :=
  if x % 2 ^ numBits < 2 ^ (numBits - 1) then (x % 2 ^ numBits : Nat)
  else (x % 2 ^ numBits : Nat) - 2 ^ numBits

/-- The unsigned value of `n` bytes read little-endian from host memory. -/
def readLE (mem : Nat → Nat) (addr n : Nat) : Nat :=
  leValueList (readBytesList mem addr n)

/-- `std.mem.read_signed(address, size)`: sizes above 16 abort; otherwise the
`size` bytes read at the (u64-truncated) address are sign-extended over
`size * 8` bits. -/
def read_signed (mem : Nat → Nat) (addr n : Nat) : Except String Int :=
  if n > 16 then .error "read size out of range"
  else .ok (signExtend (n * 8) (readLE mem (addr % 2 ^ 64) n))

/-! ## File handle table -/

/-- Modelled from the spec: the host file abstraction behind `fs::File`
(outside these sources) — an open file with a path, a mode, a position, byte
content, and whether `remove()` deleted the underlying resource. -/
structure FileRes where
  path : String
  mode : Nat
  pos : Nat
  content : List Nat
  removed : Bool
deriving DecidableEq

/-- Modelled from the spec: `readString(n)` returns up to `n` bytes from the
current position and advances it. -/
def resReadString (r : FileRes) (n : Nat) : String × FileRes :=
  let bytes := (r.content.drop r.pos).take n
  (String.mk (bytes.map Char.ofNat), { r with pos := r.pos + bytes.length })

/-- Modelled from the spec: `write(data)` overwrites bytes at the current
position, zero-padding any gap, and advances the position. -/
def resWrite (r : FileRes) (data : List Nat) : FileRes :=
  let padded := r.content ++ List.replicate (r.pos - r.content.length) 0
  { r with
    content := padded.take r.pos ++ data ++ padded.drop (r.pos + data.length)
    pos := r.pos + data.length }

/-- Modelled from the spec: `seek(offset)` moves the position. -/
def resSeek (r : FileRes) (offset : Nat) : FileRes := { r with pos := offset }

/-- Modelled from the spec: `setSize(n)` truncates or zero-extends. -/
def resSetSize (r : FileRes) (n : Nat) : FileRes :=
  { r with content := r.content.take n ++
      List.replicate (n - r.content.length) 0 }

/-- Modelled from the spec: `flush()` has no observable effect here. -/
def resFlush (r : FileRes) : FileRes := r

/-- Modelled from the spec: `remove()` deletes the underlying file. -/
def resRemove (r : FileRes) : FileRes := { r with removed := true }

/-- The process-wide file table of the plugin:
`static u32 fileCounter; static std::map<u32, fs::File> openFiles;`. -/
structure FileState where
  fileCounter : Nat
  openFiles : List (Nat × FileRes)
deriving DecidableEq

/-- Initial statics: counter 0, empty table. -/
def initialFileState : FileState := ⟨0, []⟩

def lookupFile : List (Nat × FileRes) → Nat → Option FileRes
  | [], _ => none
  | (k, v) :: rest, id => if k = id then some v else lookupFile rest id

/-- In-place mutation of the resource mapped at `id` (the effect of
`openFiles[id].op()` on the map). -/
def updateFile : List (Nat × FileRes) → Nat → FileRes → List (Nat × FileRes)
  | [], _, _ => []
  | (k, v) :: rest, id, r =>
    if k = id then (k, r) :: rest else (k, v) :: updateFile rest id r

/-- `std::map::erase(key)`: removes the entry with that key. -/
def eraseFile (l : List (Nat × FileRes)) (id : Nat) : List (Nat × FileRes) :=
  l.filter fun p => decide (p.1 ≠ id)

/-- `std::map::emplace`: inserts only when the key is absent. -/
def emplaceFile (l : List (Nat × FileRes)) (id : Nat) (r : FileRes) :
    List (Nat × FileRes) :=
  match lookupFile l id with
  | some _ => l
  | none => l ++ [(id, r)]

def containsFile (s : FileState) (id : Nat) : Bool :=
  (lookupFile s.openFiles id).isSome

/-- `std.file.open(path, mode)`: mode 1/2/3 selects Read/Write/Create and any
other value aborts; a file that fails to open aborts naming the path
(`valid` stands for the host's `isValid()` answer); on success the u32
counter is incremented, the new id is mapped, and the id is returned as an
UnsignedInteger literal. -/
def file_open (s : FileState) (path : String) (modeEnum : Nat)
    (valid : Bool) : Except String (FileState × Option Literal) :=
  if modeEnum = 1 ∨ modeEnum = 2 ∨ modeEnum = 3 then
    if valid then
      let newId := (s.fileCounter + 1) % 2 ^ 32
      .ok ({ fileCounter := newId,
             openFiles := emplaceFile s.openFiles newId
               ⟨path, modeEnum, 0, [], false⟩ },
           some (.unsignedInt newId))
    else .error ("failed to open file " ++ path)
  else .error "invalid file open mode"

/-- `std.file.close(id)`: requires the id mapped, then erases the mapping. -/
def file_close (s : FileState) (id : Nat) :
    Except String (FileState × Option Literal) :=
  if containsFile s id then
    .ok ({ s with openFiles := eraseFile s.openFiles id }, none)
  else .error "failed to access invalid file"

/-- `std.file.read(id, size)`: requires the id mapped, delegates to
`readString` and returns the data as a String literal. -/
def file_read (s : FileState) (id n : Nat) :
    Except String (FileState × Option Literal) :=
  match lookupFile s.openFiles id with
  | none => .error "failed to access invalid file"
  | some r =>
    let res := resReadString r n
    .ok ({ s with openFiles := updateFile s.openFiles id res.2 },
         some (.str res.1))

/-- `std.file.write(id, data)`: requires the id mapped, writes the bytes of
the (already string-coerced) data. -/
def file_write (s : FileState) (id : Nat) (data : String) :
    Except String (FileState × Option Literal) :=
  match lookupFile s.openFiles id with
  | none => .error "failed to access invalid file"
  | some r =>
    let r' := resWrite r (data.toList.map Char.toNat)
    .ok ({ s with openFiles := updateFile s.openFiles id r' }, none)

/-- `std.file.seek(id, offset)`. -/
def file_seek (s : FileState) (id offset : Nat) :
    Except String (FileState × Option Literal) :=
  match lookupFile s.openFiles id with
  | none => .error "failed to access invalid file"
  | some r =>
    .ok ({ s with openFiles := updateFile s.openFiles id (resSeek r offset) },
         none)

/-- `std.file.size(id)`: returns the byte length as an unsigned literal. -/
def file_size (s : FileState) (id : Nat) :
    Except String (FileState × Option Literal) :=
  match lookupFile s.openFiles id with
  | none => .error "failed to access invalid file"
  | some r => .ok (s, some (.unsignedInt r.content.length))

/-- `std.file.resize(id, size)`. -/
def file_resize (s : FileState) (id n : Nat) :
    Except String (FileState × Option Literal) :=
  match lookupFile s.openFiles id with
  | none => .error "failed to access invalid file"
  | some r =>
    .ok ({ s with openFiles := updateFile s.openFiles id (resSetSize r n) },
         none)

/-- `std.file.flush(id)`. -/
def file_flush (s : FileState) (id : Nat) :
    Except String (FileState × Option Literal) :=
  match lookupFile s.openFiles id with
  | none => .error "failed to access invalid file"
  | some r =>
    .ok ({ s with openFiles := updateFile s.openFiles id (resFlush r) }, none)

/-- `std.file.remove(id)`: requires the id mapped, deletes the underlying
resource — and leaves the table entry in place. -/
def file_remove (s : FileState) (id : Nat) :
    Except String (FileState × Option Literal) :=
  match lookupFile s.openFiles id with
  | none => .error "failed to access invalid file"
  | some r =>
    .ok ({ s with openFiles := updateFile s.openFiles id (resRemove r) },
         none)

/-! ## C6: id counter and table invariants across open/close traces -/

/-- A script-visible file-table operation. -/
inductive FileOp where
  | opOpen : String → Nat → Bool → FileOp
  | opClose : Nat → FileOp
deriving DecidableEq

/-- Whether an open with this mode and host validity succeeds (its success
does not depend on the table state). -/
def openOk (m : Nat) (v : Bool) : Bool :=
  (decide (m = 1 ∨ m = 2 ∨ m = 3)) && v

/-- Run a sequence of open/close calls; an abort leaves the table untouched
(the abort propagates to the evaluator).  Returns the final state and the
ids issued by the successful opens, in order. -/
def runOps : List FileOp → FileState → FileState × List Nat
  | [], s => (s, [])
  | .opOpen p m v :: rest, s =>
    match file_open s p m v with
    | .ok (s', some (.unsignedInt id)) =>
      ((runOps rest s').1, id :: (runOps rest s').2)
    | _ => runOps rest s
  | .opClose id :: rest, s =>
    match file_close s id with
    | .ok (s', _) => runOps rest s'
    | .error _ => runOps rest s

/-- Number of successful opens in a trace. -/
def countOpens : List FileOp → Nat
  | [] => 0
  | .opOpen _ m v :: rest => (if openOk m v then 1 else 0) + countOpens rest
  | .opClose _ :: rest => countOpens rest

/-- The state after a successful `open` on state `s`. -/
def openedState (s : FileState) (p : String) (m : Nat) : FileState :=
  { fileCounter := (s.fileCounter + 1) % 2 ^ 32
    openFiles := emplaceFile s.openFiles ((s.fileCounter + 1) % 2 ^ 32) ⟨p, m, 0, [], false⟩ }

/-- C10: `std.sizeof_pack` returns the number of arguments it was given as an
UnsignedInteger literal and never aborts (and, being a pure function of its
argument list, has no side effect). -/
theorem sizeof_pack_returns_arg_count (params : List Literal) :
    sizeof_pack params = .ok (some (.unsignedInt params.length)) := rfl

/-- C3: the function registry contains no entry named "atan2" in the
`std.math` namespace — instead the two-argument atan2 implementation is
registered under a second "atan" entry with arity Exactly 1 (which also reads
a second parameter the arity does not guarantee).  This refutes the claim
that the registry maps `std.math`, "atan2" to an Exactly 2 descriptor. -/
theorem no_atan2_registration :
    registrations.countP
        (fun r => r.ns = ["builtin", "std", "math"] ∧ r.fname = "atan2") = 0 ∧
    registrations.countP
        (fun r => r.ns = ["builtin", "std", "math"] ∧ r.fname = "atan"
          ∧ r.arity = .exactly 1) = 2 := by
  constructor <;> rfl

/-- C1: the degenerate scan is not empty.  Over a 4-byte buffer with a 6-byte
target sequence the u64 loop bound `endOffset - sequence.size()` underflows to
`2^64 - 2`, so the loop body runs and reads memory; over all-zero memory the
six zero bytes read at offset 0 match the target and the call returns 0, not
the claimed -1. -/
theorem find_underflow_scans_and_returns_zero :
    find_sequence_in_range (fun _ => 0) 4 0 0 0 [0, 0, 0, 0, 0, 0] =
      .ok 0 := by
  rfl

/-! ## C4: refinement of the scan loop to the declarative nth-match spec -/

theorem checkSeq_ok (args : List Nat) :
    ∀ i, (∀ b ∈ args, b ≤ 255) → checkSeq i args = .ok args := by
  induction args with
  | nil => intro i _; rfl
  | cons b bs ih =>
    intro i hall
    have hb : b ≤ 255 := hall b (List.mem_cons_self b bs)
    have hbs : ∀ x ∈ bs, x ≤ 255 := fun x hx => hall x (List.mem_cons_of_mem b hx)
    unfold checkSeq
    rw [if_neg (by omega), ih (i + 1) hbs]
    have : b % 256 = b := Nat.mod_eq_of_lt (by omega)
    rw [this]

theorem findLoop_succ (mem : Nat → Nat) (seq : List Nat)
    (occIdx fuel occ offset : Nat) :
    findLoop mem seq occIdx (fuel + 1) occ offset =
      if readBytesList mem offset seq.length = seq then
        if occ < occIdx then
          findLoop mem seq occIdx fuel ((occ + 1) % 2 ^ 32) (offset + 1)
        else Int.ofNat offset
      else findLoop mem seq occIdx fuel occ (offset + 1) := rfl

theorem findLoop_eq (mem : Nat → Nat) (seq : List Nat) (occIdx bound : Nat)
    (hocc32 : occIdx < 2 ^ 32) (fuel : Nat) :
    ∀ offset occ, fuel = bound - offset → occ ≤ occIdx →
      findLoop mem seq occIdx fuel occ offset =
        match (matchOffsets mem seq offset bound).get? (occIdx - occ) with
        | some o => Int.ofNat o
        | none => -1 := by
  induction fuel with
  | zero =>
    intro offset occ hfuel _
    have hb : bound - offset = 0 := hfuel.symm
    unfold matchOffsets
    rw [hb]
    rfl
  | succ fuel ih =>
    intro offset occ hfuel hle
    have hlt : offset < bound := by omega
    have hfuel' : fuel = bound - (offset + 1) := by omega
    have hrange : bound - offset = fuel + 1 := hfuel.symm
    have hsplit : matchOffsets mem seq offset bound =
        if decide (readBytesList mem offset seq.length = seq) then
          offset :: matchOffsets mem seq (offset + 1) bound
        else matchOffsets mem seq (offset + 1) bound := by
      unfold matchOffsets
      rw [hrange, List.range'_succ, List.filter_cons, ← hfuel']
    by_cases hm : readBytesList mem offset seq.length = seq
    · rw [hsplit, if_pos (by simpa using hm)]
      by_cases hocc : occ < occIdx
      · have hmod : (occ + 1) % 2 ^ 32 = occ + 1 := Nat.mod_eq_of_lt (by omega)
        have hidx : occIdx - occ = (occIdx - (occ + 1)) + 1 := by omega
        rw [findLoop_succ, if_pos hm, if_pos hocc, hmod,
          ih (offset + 1) (occ + 1) hfuel' (by omega), hidx]
        rfl
      · have heq : occ = occIdx := by omega
        rw [findLoop_succ, if_pos hm, if_neg hocc, heq, Nat.sub_self]
        rfl
    · rw [hsplit, if_neg (by simpa using hm)]
      rw [findLoop_succ, if_neg hm]
      exact ih (offset + 1) occ hfuel' hle

/-- C4: `find_sequence_in_range` refines the declarative specification: with
in-range arguments (offsets and data size fit in u64, the occurrence index in
the u32 match counter, every sequence byte ≤ 0xFF) and a scan range at least
as long as the sequence, the result is the start offset of the match whose
0-based ordinal is `occurrenceIndex` among the left-to-right matches in
`[offsetFrom, endOffset - sequenceLength)`, where `endOffset` is `dataSize`
when `offsetTo ≤ offsetFrom` and `min dataSize offsetTo` otherwise, and `-1`
when fewer matches exist. -/
theorem find_sequence_refines_nth_match
    (mem : Nat → Nat) (dataSize occurrenceIndex offsetFrom offsetTo : Nat)
    (args : List Nat)
    (hbytes : ∀ b ∈ args, b ≤ 255)
    (hds : dataSize < 2 ^ 64) (hfrom : offsetFrom < 2 ^ 64)
    (hto : offsetTo < 2 ^ 64) (hocc : occurrenceIndex < 2 ^ 32)
    (hlen : args.length ≤
      (if offsetTo ≤ offsetFrom then dataSize else min dataSize offsetTo)) :
    find_sequence_in_range mem dataSize occurrenceIndex offsetFrom offsetTo
        args =
      .ok (findSpec mem dataSize occurrenceIndex offsetFrom offsetTo args) := by
  have hcs := checkSeq_ok args 3 hbytes
  unfold find_sequence_in_range
  rw [hcs]
  have hds' : dataSize % 2 ^ 64 = dataSize := Nat.mod_eq_of_lt hds
  have hto' : offsetTo % 2 ^ 64 = offsetTo := Nat.mod_eq_of_lt hto
  have hfrom' : offsetFrom % 2 ^ 64 = offsetFrom := Nat.mod_eq_of_lt hfrom
  simp only [hds', hto', hfrom']
  set endOffset :=
    if offsetTo ≤ offsetFrom then dataSize else min dataSize offsetTo with hE
  have hElt : endOffset < 2 ^ 64 := by
    rw [hE]; split <;> omega
  have hlenE : args.length ≤ endOffset := hlen
  have hsub : u64sub endOffset args.length = endOffset - args.length := by
    unfold u64sub
    rw [Nat.mod_eq_of_lt (show args.length < 2 ^ 64 by omega)]
    rw [show endOffset + 2 ^ 64 - args.length =
          (endOffset - args.length) + 2 ^ 64 by omega]
    rw [Nat.add_mod_right]
    exact Nat.mod_eq_of_lt (by omega)
  rw [hsub]
  rw [findLoop_eq mem args occurrenceIndex (endOffset - args.length) hocc _
    offsetFrom 0 rfl (Nat.zero_le _)]
  unfold findSpec
  rw [Nat.sub_zero, ← hE]

theorem find_sequence_refines_nth_match_witness :
    find_sequence_in_range mem7 7 0 0 0 [0xAA, 0xBB] = .ok 4 ∧
    find_sequence_in_range mem7 7 1 0 0 [0xAA, 0xBB] = .ok (-1) := by
  constructor
  · rw [find_sequence_refines_nth_match mem7 7 0 0 0 [0xAA, 0xBB]
      (by decide) (by decide) (by decide) (by decide) (by decide) (by decide)]
    rfl
  · rw [find_sequence_refines_nth_match mem7 7 1 0 0 [0xAA, 0xBB]
      (by decide) (by decide) (by decide) (by decide) (by decide) (by decide)]
    rfl

/-- C2 counterexample: `at("hello", 5)` does not abort — the guard is
`absIndex > length` and `5 > 5` is false, so the code returns `string[5]`,
the terminating NUL, refuting the claim that magnitude equal to the length is
valid only for negative indices. -/
theorem at_hello_five_returns_nul :
    string_at helloChars 5 = .ok (Char.ofNat 0) := rfl

/-- C2 (amended): `at(s, i)` aborts with "character index out of range"
exactly when the magnitude of `i` exceeds the length of `s`; magnitude equal
to the length is accepted for both signs (a non-negative `i` equal to the
length yields the terminating NUL).  The bounds keep `i` a valid i128 away
from the minimum, where the C++ absolute value overflows. -/
theorem at_abort_iff_magnitude_exceeds_length (s : List Char) (i : Int)
    (hmin : -(2 ^ 127) < i) (hmax : i < 2 ^ 127) :
    (string_at s i = .error "character index out of range" ↔
      s.length < i.natAbs) ∧
    (0 ≤ i → i.natAbs ≤ s.length →
      string_at s i = .ok (cppStringGet s i.toNat)) ∧
    (i < 0 → i.natAbs ≤ s.length →
      string_at s i = .ok (cppStringGet s (s.length - i.natAbs))) := by
  refine ⟨?_, ?_, ?_⟩
  · constructor
    · intro h
      by_contra hlen
      unfold string_at at h
      rw [if_neg (by omega)] at h
      by_cases hi : 0 ≤ i
      · rw [if_pos hi] at h; exact Except.noConfusion h
      · rw [if_neg hi] at h; exact Except.noConfusion h
    · intro h
      unfold string_at
      rw [if_pos (by omega)]
  · intro hi hle
    unfold string_at
    rw [if_neg (by omega), if_pos hi]
  · intro hi hle
    unfold string_at
    rw [if_neg (by omega), if_neg (by omega)]

theorem at_abort_iff_witness :
    string_at helloChars (-1) = .ok 'o' ∧
    string_at helloChars 5 = .ok (Char.ofNat 0) ∧
    string_at helloChars 6 = .error "character index out of range" := by
  refine ⟨?_, ?_, ?_⟩
  · rw [(at_abort_iff_magnitude_exceeds_length helloChars (-1)
      (by norm_num) (by norm_num)).2.2 (by norm_num) (by decide)]
    rfl
  · rw [(at_abort_iff_magnitude_exceeds_length helloChars 5
      (by norm_num) (by norm_num)).2.1 (by norm_num) (by decide)]
    rfl
  · exact (at_abort_iff_magnitude_exceeds_length helloChars 6
      (by norm_num) (by norm_num)).1.mpr (by decide)

set_option maxRecDepth 8000 in
/-- C9: parse_int and parse_float never abort — every input produces an
ordinary literal result — malformed input yields 0 (resp. 0.0) as a soft
failure, and well-formed input converts normally, e.g.
parse_int("ff", 16) = 255. -/
theorem parse_soft_failure :
    (∀ (s : String) (base : Nat), ∃ v : Int,
      parse_int s base = .ok (some (.signedInt v))) ∧
    (∀ s : String, ∃ q : ℚ,
      parse_float s = .ok (some (.floatingPoint q))) ∧
    parse_int "ff" 16 = .ok (some (.signedInt 255)) ∧
    parse_int "not-a-number" 10 = .ok (some (.signedInt 0)) ∧
    parse_float "not-a-number" = .ok (some (.floatingPoint 0)) := by
  refine ⟨fun s base => ⟨_, rfl⟩, fun s => ⟨_, rfl⟩, ?_, ?_, ?_⟩ <;> rfl

theorem leValueList_toLEBytes :
    ∀ (n x : Nat), x < 256 ^ n → leValueList (toLEBytes x n) = x := by
  intro n
  induction n with
  | zero => intro x hx; interval_cases x; rfl
  | succ n ih =>
    intro x hx
    have hdiv : x / 256 < 256 ^ n := by
      rw [Nat.div_lt_iff_lt_mul (by norm_num)]
      calc x < 256 ^ (n + 1) := hx
        _ = 256 ^ n * 256 := by rw [pow_succ]
    show x % 256 + 256 * leValueList (toLEBytes (x / 256) n) = x
    rw [ih (x / 256) hdiv]
    omega

theorem readBytesList_head (mem : Nat → Nat) (addr n : Nat) :
    readBytesList mem addr (n + 1) =
      mem addr % 256 :: readBytesList mem (addr + 1) n := by
  unfold readBytesList
  rw [List.range_succ_eq_map]
  simp only [List.map_cons, List.map_map, Nat.add_zero]
  congr 1
  apply List.map_congr_left
  intro i _
  simp only [Function.comp_apply]
  congr 2
  omega

theorem readBytesList_toLEBytes (mem : Nat → Nat) :
    ∀ (n addr x : Nat),
      (∀ i, i < n → mem (addr + i) = (toLEBytes x n).getD i 0) →
      readBytesList mem addr n = toLEBytes x n := by
  intro n
  induction n with
  | zero => intro addr x _; rfl
  | succ n ih =>
    intro addr x hmem
    rw [readBytesList_head]
    show _ = x % 256 :: toLEBytes (x / 256) n
    have h0 : mem addr = x % 256 := by
      have := hmem 0 (by omega)
      simpa [toLEBytes] using this
    have htail : readBytesList mem (addr + 1) n = toLEBytes (x / 256) n := by
      apply ih
      intro i hi
      have := hmem (i + 1) (by omega)
      rw [show addr + (i + 1) = addr + 1 + i by omega] at this
      simpa [toLEBytes] using this
    rw [h0, htail, Nat.mod_mod_of_dvd x dvd_rfl]

theorem signExtend_emod (m : Nat) (v : Int) (hm : 1 ≤ m)
    (h1 : -(2 ^ (m - 1) : Int) ≤ v) (h2 : v < (2 ^ (m - 1) : Int)) :
    signExtend m ((v % (2 : Int) ^ m).toNat) = v := by
  have hsplit : (2 : Int) ^ m = 2 ^ (m - 1) * 2 := by
    conv_lhs => rw [show m = (m - 1) + 1 by omega]
    rw [pow_succ]
  have hc2 : ((2 ^ m : Nat) : Int) = (2 : Int) ^ m := by push_cast; ring
  have hc3 : ((2 ^ (m - 1) : Nat) : Int) = (2 : Int) ^ (m - 1) := by
    push_cast; ring
  have hP : (0 : Int) < 2 ^ (m - 1) := by positivity
  unfold signExtend
  by_cases hv : 0 ≤ v
  · have hmod : v % (2 : Int) ^ m = v := Int.emod_eq_of_lt hv (by omega)
    rw [hmod]
    have hxc : ((v.toNat : Nat) : Int) = v := Int.toNat_of_nonneg hv
    have hxlt : v.toNat < 2 ^ m := by omega
    rw [Nat.mod_eq_of_lt hxlt, if_pos (by omega)]
    omega
  · have hge : (0 : Int) ≤ v + 2 ^ m := by omega
    have hlt : v + 2 ^ m < 2 ^ m := by omega
    have hmod : v % (2 : Int) ^ m = v + 2 ^ m := by
      rw [← Int.add_emod_self]
      exact Int.emod_eq_of_lt hge hlt
    rw [hmod]
    have hxc : (((v + 2 ^ m).toNat : Nat) : Int) = v + 2 ^ m :=
      Int.toNat_of_nonneg hge
    have hxlt : (v + 2 ^ m).toNat < 2 ^ m := by omega
    rw [Nat.mod_eq_of_lt hxlt, if_neg (by omega)]
    omega

/-- C8: read_signed aborts with "read size out of range" whenever the size
exceeds 16; otherwise, for every size n between 1 and 16 and every value v
representable in n signed bytes, reading back memory that holds the n
little-endian two's-complement bytes of v returns exactly v — the result is
the sign-extension of the n*8 low-order bits of the bytes read. -/
theorem read_signed_roundtrip :
    (∀ (mem : Nat → Nat) (addr n : Nat), 16 < n →
      read_signed mem addr n = .error "read size out of range") ∧
    (∀ (mem : Nat → Nat) (addr n : Nat) (v : Int),
      1 ≤ n → n ≤ 16 → addr < 2 ^ 64 →
      -(2 ^ (n * 8 - 1) : Int) ≤ v → v < (2 ^ (n * 8 - 1) : Int) →
      (∀ i, i < n →
        mem (addr + i) = (toLEBytes (v % (2 : Int) ^ (n * 8)).toNat n).getD i 0) →
      read_signed mem addr n = .ok v) := by
  constructor
  · intro mem addr n hn
    unfold read_signed
    rw [if_pos hn]
  · intro mem addr n v hn1 hn16 haddr hlo hhi hmem
    unfold read_signed
    rw [if_neg (by omega), Nat.mod_eq_of_lt haddr]
    unfold readLE
    rw [readBytesList_toLEBytes mem n addr _ hmem]
    rw [leValueList_toLEBytes n _ (by
      have hpos : (0 : Int) < 2 ^ (n * 8) := by positivity
      have hlt : v % (2 : Int) ^ (n * 8) < 2 ^ (n * 8) :=
        Int.emod_lt_of_pos v hpos
      have hc : ((256 ^ n : Nat) : Int) = (2 : Int) ^ (n * 8) := by
        push_cast
        rw [show (256 : Int) = 2 ^ 8 by norm_num, ← pow_mul, mul_comm]
      omega)]
    rw [signExtend_emod (n * 8) v (by omega) hlo hhi]

theorem read_signed_roundtrip_witness :
    read_signed (fun i => if i = 0 then 254 else 255) 0 2 = .ok (-2) ∧
    read_signed (fun _ => 0) 0 17 = .error "read size out of range" := by
  constructor
  · exact read_signed_roundtrip.2 (fun i => if i = 0 then 254 else 255) 0 2
      (-2) (by norm_num) (by norm_num) (by norm_num) (by norm_num)
      (by norm_num) (by decide)
  · exact read_signed_roundtrip.1 (fun _ => 0) 0 17 (by norm_num)

/-! ## Table lemmas and C5 / C7 -/

theorem lookupFile_erase_self :
    ∀ (l : List (Nat × FileRes)) (id : Nat),
      lookupFile (eraseFile l id) id = none := by
  intro l id
  induction l with
  | nil => rfl
  | cons p rest ih =>
    unfold eraseFile at ih ⊢
    rw [List.filter_cons]
    by_cases hk : p.1 = id
    · rw [if_neg (by simp [hk])]
      exact ih
    · rw [if_pos (by simpa using hk)]
      show lookupFile (p :: _) id = none
      obtain ⟨k, v⟩ := p
      unfold lookupFile
      rw [if_neg (by simpa using hk)]
      exact ih

theorem lookupFile_update_self :
    ∀ (l : List (Nat × FileRes)) (id : Nat) (r r' : FileRes),
      lookupFile l id = some r →
      lookupFile (updateFile l id r') id = some r' := by
  intro l id r r' h
  induction l with
  | nil => exact Option.noConfusion h
  | cons p rest ih =>
    obtain ⟨k, v⟩ := p
    unfold updateFile
    by_cases hk : k = id
    · rw [if_pos hk]
      unfold lookupFile
      rw [if_pos hk]
    · rw [if_neg hk]
      unfold lookupFile at h ⊢
      rw [if_neg hk] at h ⊢
      exact ih h

theorem lookupFile_update_other :
    ∀ (l : List (Nat × FileRes)) (id j : Nat) (r' : FileRes), j ≠ id →
      lookupFile (updateFile l id r') j = lookupFile l j := by
  intro l id j r' hne
  induction l with
  | nil => rfl
  | cons p rest ih =>
    obtain ⟨k, v⟩ := p
    unfold updateFile
    by_cases hk : k = id
    · rw [if_pos hk]
      unfold lookupFile
      rw [if_neg (by omega), if_neg (by omega)]
    · rw [if_neg hk]
      unfold lookupFile
      by_cases hkj : k = j
      · rw [if_pos hkj, if_pos hkj]
      · rw [if_neg hkj, if_neg hkj]
        exact ih

/-- C5: closing a currently mapped handle removes exactly that mapping, and
afterwards every file operation on the handle (close, read, write, seek,
size, resize, flush, remove) aborts with "failed to access invalid file";
closing an unmapped handle aborts with the same message and produces no new
state, leaving the table as it was. -/
theorem close_removes_handle_and_ops_abort (s : FileState) (h : Nat) :
    (containsFile s h = true →
      ∃ s', file_close s h = .ok (s', none) ∧
        containsFile s' h = false ∧
        file_close s' h = .error "failed to access invalid file" ∧
        (∀ n, file_read s' h n = .error "failed to access invalid file") ∧
        (∀ d, file_write s' h d = .error "failed to access invalid file") ∧
        (∀ off, file_seek s' h off = .error "failed to access invalid file") ∧
        file_size s' h = .error "failed to access invalid file" ∧
        (∀ n, file_resize s' h n = .error "failed to access invalid file") ∧
        file_flush s' h = .error "failed to access invalid file" ∧
        file_remove s' h = .error "failed to access invalid file") ∧
    (containsFile s h = false →
      file_close s h = .error "failed to access invalid file") := by
  constructor
  · intro hc
    refine ⟨{ s with openFiles := eraseFile s.openFiles h }, ?_, ?_, ?_, ?_,
      ?_, ?_, ?_, ?_, ?_, ?_⟩
    · unfold file_close
      rw [if_pos hc]
    · unfold containsFile
      rw [lookupFile_erase_self]
      rfl
    · unfold file_close containsFile
      rw [lookupFile_erase_self]
      rfl
    · intro n
      unfold file_read
      rw [lookupFile_erase_self]
    · intro d
      unfold file_write
      rw [lookupFile_erase_self]
    · intro off
      unfold file_seek
      rw [lookupFile_erase_self]
    · unfold file_size
      rw [lookupFile_erase_self]
    · intro n
      unfold file_resize
      rw [lookupFile_erase_self]
    · unfold file_flush
      rw [lookupFile_erase_self]
    · unfold file_remove
      rw [lookupFile_erase_self]
  · intro hc
    unfold file_close
    rw [hc]
    rfl

theorem close_removes_handle_and_ops_abort_witness :
    (∃ s', file_close ⟨1, [(1, ⟨"f", 3, 0, [], false⟩)]⟩ 1 = .ok (s', none) ∧
      containsFile s' 1 = false ∧
      file_close s' 1 = .error "failed to access invalid file" ∧
      (∀ n, file_read s' 1 n = .error "failed to access invalid file") ∧
      (∀ d, file_write s' 1 d = .error "failed to access invalid file") ∧
      (∀ off, file_seek s' 1 off = .error "failed to access invalid file") ∧
      file_size s' 1 = .error "failed to access invalid file" ∧
      (∀ n, file_resize s' 1 n = .error "failed to access invalid file") ∧
      file_flush s' 1 = .error "failed to access invalid file" ∧
      file_remove s' 1 = .error "failed to access invalid file") ∧
    file_close ⟨1, [(1, ⟨"f", 3, 0, [], false⟩)]⟩ 2 =
      .error "failed to access invalid file" :=
  ⟨(close_removes_handle_and_ops_abort ⟨1, [(1, ⟨"f", 3, 0, [], false⟩)]⟩ 1).1
      rfl,
   (close_removes_handle_and_ops_abort ⟨1, [(1, ⟨"f", 3, 0, [], false⟩)]⟩ 2).2
      rfl⟩

/-- C7: `remove(id)` on a mapped id succeeds, deletes the underlying file
resource, but keeps the id mapped (now to the removed resource) and leaves
every other table entry and the counter unchanged; on an unmapped id it
aborts with the invalid-handle message. -/
theorem remove_keeps_mapping (s : FileState) (id : Nat) :
    (∀ r, lookupFile s.openFiles id = some r →
      file_remove s id =
        .ok ({ s with openFiles := updateFile s.openFiles id (resRemove r) },
          none) ∧
      (resRemove r).removed = true ∧
      lookupFile (updateFile s.openFiles id (resRemove r)) id =
        some (resRemove r) ∧
      (∀ j, j ≠ id →
        lookupFile (updateFile s.openFiles id (resRemove r)) j =
          lookupFile s.openFiles j)) ∧
    (lookupFile s.openFiles id = none →
      file_remove s id = .error "failed to access invalid file") := by
  constructor
  · intro r hr
    refine ⟨?_, rfl, ?_, ?_⟩
    · unfold file_remove
      rw [hr]
    · exact lookupFile_update_self s.openFiles id r (resRemove r) hr
    · intro j hj
      exact lookupFile_update_other s.openFiles id j (resRemove r) hj
  · intro hr
    unfold file_remove
    rw [hr]

theorem remove_keeps_mapping_witness :
    file_remove ⟨1, [(1, ⟨"f", 3, 0, [], false⟩)]⟩ 1 =
      .ok (⟨1, [(1, ⟨"f", 3, 0, [], true⟩)]⟩, none) ∧
    containsFile ⟨1, [(1, ⟨"f", 3, 0, [], true⟩)]⟩ 1 = true ∧
    file_remove ⟨1, [(1, ⟨"f", 3, 0, [], false⟩)]⟩ 2 =
      .error "failed to access invalid file" := by
  refine ⟨?_, rfl, ?_⟩
  · have h := ((remove_keeps_mapping ⟨1, [(1, ⟨"f", 3, 0, [], false⟩)]⟩ 1).1
      ⟨"f", 3, 0, [], false⟩ rfl).1
    rw [h]
    rfl
  · exact (remove_keeps_mapping ⟨1, [(1, ⟨"f", 3, 0, [], false⟩)]⟩ 2).2 rfl

theorem file_open_of_ok (s : FileState) (p : String) (m : Nat) (v : Bool)
    (h : openOk m v = true) :
    file_open s p m v =
      .ok (openedState s p m,
           some (.unsignedInt ((s.fileCounter + 1) % 2 ^ 32))) := by
  unfold openOk at h
  rw [Bool.and_eq_true, decide_eq_true_eq] at h
  unfold file_open openedState
  rw [if_pos h.1, if_pos h.2]

theorem file_open_of_err (s : FileState) (p : String) (m : Nat) (v : Bool)
    (h : openOk m v = false) :
    ∃ e, file_open s p m v = .error e := by
  unfold file_open
  by_cases h1 : m = 1 ∨ m = 2 ∨ m = 3
  · have hv : v = false := by
      unfold openOk at h
      simpa [h1] using h
    rw [if_pos h1, hv]
    exact ⟨_, rfl⟩
  · rw [if_neg h1]
    exact ⟨_, rfl⟩

theorem file_close_of_ok (s : FileState) (id : Nat)
    (hc : containsFile s id = true) :
    file_close s id =
      .ok ({ s with openFiles := eraseFile s.openFiles id }, none) := by
  unfold file_close
  rw [if_pos hc]

theorem file_close_of_err (s : FileState) (id : Nat)
    (hc : ¬containsFile s id = true) :
    file_close s id = .error "failed to access invalid file" := by
  unfold file_close
  rw [if_neg hc]

theorem runOps_ids : ∀ (ops : List FileOp) (s : FileState),
    (runOps ops s).2 =
      (List.range (countOpens ops)).map
        (fun k => (s.fileCounter + k + 1) % 2 ^ 32) := by
  intro ops
  induction ops with
  | nil => intro s; rfl
  | cons op rest ih =>
    intro s
    cases op with
    | opClose id =>
      by_cases hc : containsFile s id = true
      · rw [show runOps (FileOp.opClose id :: rest) s =
            runOps rest { s with openFiles := eraseFile s.openFiles id } by
          simp only [runOps, file_close_of_ok s id hc]]
        rw [show countOpens (FileOp.opClose id :: rest) = countOpens rest
          from rfl]
        exact ih _
      · rw [show runOps (FileOp.opClose id :: rest) s = runOps rest s by
          simp only [runOps, file_close_of_err s id hc]]
        exact ih s
    | opOpen p m v =>
      by_cases hok : openOk m v = true
      · rw [show runOps (FileOp.opOpen p m v :: rest) s =
            ((runOps rest (openedState s p m)).1,
             (s.fileCounter + 1) % 2 ^ 32 ::
               (runOps rest (openedState s p m)).2) by
          simp only [runOps, file_open_of_ok s p m v hok]]
        show (s.fileCounter + 1) % 2 ^ 32 :: _ =
          (List.range (countOpens (FileOp.opOpen p m v :: rest))).map _
        rw [show countOpens (FileOp.opOpen p m v :: rest) =
            countOpens rest + 1 by
          show (if openOk m v then 1 else 0) + countOpens rest = _
          rw [hok]
          simp [Nat.add_comm]]
        rw [List.range_succ_eq_map, List.map_cons, List.map_map, ih]
        congr 1
        apply List.map_congr_left
        intro k _
        simp only [Function.comp_apply]
        show ((s.fileCounter + 1) % 2 ^ 32 + k + 1) % 2 ^ 32 =
          (s.fileCounter + (k + 1) + 1) % 2 ^ 32
        conv_lhs => rw [Nat.add_assoc, Nat.mod_add_mod]
        congr 1
        omega
      · obtain ⟨e, hfo⟩ := file_open_of_err s p m v (by simpa using hok)
        rw [show runOps (FileOp.opOpen p m v :: rest) s = runOps rest s by
          simp only [runOps, hfo]]
        rw [show countOpens (FileOp.opOpen p m v :: rest) = countOpens rest by
          show (if openOk m v then 1 else 0) + countOpens rest = _
          simp [show openOk m v = false by simpa using hok]]
        exact ih s

theorem lookupFile_eq_none_iff (l : List (Nat × FileRes)) (id : Nat) :
    lookupFile l id = none ↔ id ∉ l.map Prod.fst := by
  induction l with
  | nil => simp [lookupFile]
  | cons p rest ih =>
    obtain ⟨k, v⟩ := p
    unfold lookupFile
    by_cases hk : k = id
    · simp [hk]
    · rw [if_neg hk, ih]
      simp only [List.map_cons, List.mem_cons]
      constructor
      · intro h hmem
        rcases hmem with h1 | h1
        · exact hk h1.symm
        · exact h h1
      · intro h h1
        exact h (Or.inr h1)

theorem keys_emplace_nodup (l : List (Nat × FileRes)) (id : Nat)
    (r : FileRes) (hn : (l.map Prod.fst).Nodup) :
    ((emplaceFile l id r).map Prod.fst).Nodup := by
  unfold emplaceFile
  cases h : lookupFile l id with
  | some r' => exact hn
  | none =>
    rw [List.map_append]
    rw [List.nodup_append]
    refine ⟨hn, List.nodup_singleton id, ?_⟩
    intro a ha hb
    rw [show (([(id, r)] : List (Nat × FileRes)).map Prod.fst) = [id]
      from rfl, List.mem_singleton] at hb
    subst hb
    exact (lookupFile_eq_none_iff l a).mp h ha

theorem keys_emplace_subset (l : List (Nat × FileRes)) (id : Nat)
    (r : FileRes) :
    ∀ j, j ∈ (emplaceFile l id r).map Prod.fst →
      j ∈ l.map Prod.fst ∨ j = id := by
  intro j hj
  unfold emplaceFile at hj
  cases h : lookupFile l id with
  | some r' =>
    rw [h] at hj
    exact Or.inl hj
  | none =>
    rw [h, List.map_append] at hj
    rcases List.mem_append.mp hj with h1 | h1
    · exact Or.inl h1
    · right
      simpa using h1

theorem keys_erase_nodup (l : List (Nat × FileRes)) (id : Nat)
    (hn : (l.map Prod.fst).Nodup) :
    ((eraseFile l id).map Prod.fst).Nodup :=
  ((List.filter_sublist l).map Prod.fst).nodup hn

theorem keys_erase_subset (l : List (Nat × FileRes)) (id : Nat) :
    ∀ j, j ∈ (eraseFile l id).map Prod.fst → j ∈ l.map Prod.fst := by
  intro j hj
  exact ((List.filter_sublist l).map Prod.fst).subset hj

theorem runOps_keys : ∀ (ops : List FileOp) (s : FileState),
    (s.openFiles.map Prod.fst).Nodup →
    (((runOps ops s).1.openFiles.map Prod.fst).Nodup ∧
      ∀ id, id ∈ (runOps ops s).1.openFiles.map Prod.fst →
        id ∈ s.openFiles.map Prod.fst ∨ id ∈ (runOps ops s).2) := by
  intro ops
  induction ops with
  | nil => exact fun s hn => ⟨hn, fun id h => Or.inl h⟩
  | cons op rest ih =>
    intro s hn
    cases op with
    | opClose id =>
      by_cases hc : containsFile s id = true
      · rw [show runOps (FileOp.opClose id :: rest) s =
            runOps rest { s with openFiles := eraseFile s.openFiles id } by
          simp only [runOps, file_close_of_ok s id hc]]
        obtain ⟨h1, h2⟩ := ih { s with openFiles := eraseFile s.openFiles id }
          (keys_erase_nodup s.openFiles id hn)
        refine ⟨h1, ?_⟩
        intro j hj
        rcases h2 j hj with h3 | h3
        · exact Or.inl (keys_erase_subset s.openFiles id j h3)
        · exact Or.inr h3
      · rw [show runOps (FileOp.opClose id :: rest) s = runOps rest s by
          simp only [runOps, file_close_of_err s id hc]]
        exact ih s hn
    | opOpen p m v =>
      by_cases hok : openOk m v = true
      · rw [show runOps (FileOp.opOpen p m v :: rest) s =
            ((runOps rest (openedState s p m)).1,
             (s.fileCounter + 1) % 2 ^ 32 ::
               (runOps rest (openedState s p m)).2) by
          simp only [runOps, file_open_of_ok s p m v hok]]
        obtain ⟨h1, h2⟩ := ih (openedState s p m)
          (keys_emplace_nodup s.openFiles ((s.fileCounter + 1) % 2 ^ 32) _ hn)
        refine ⟨h1, ?_⟩
        intro j hj
        rcases h2 j hj with h3 | h3
        · rcases keys_emplace_subset s.openFiles
            ((s.fileCounter + 1) % 2 ^ 32) _ j h3 with h4 | h4
          · exact Or.inl h4
          · exact Or.inr (by rw [h4]; exact List.mem_cons_self _ _)
        · exact Or.inr (List.mem_cons_of_mem _ h3)
      · obtain ⟨e, hfo⟩ := file_open_of_err s p m v (by simpa using hok)
        rw [show runOps (FileOp.opOpen p m v :: rest) s = runOps rest s by
          simp only [runOps, hfo]]
        exact ih s hn

/-- C6 (amended): across any sequence of open/close operations from the
initial state in which fewer than 2^32 opens succeed, the ids issued by the
successful opens (each returned as an UnsignedInteger literal holding the
just-incremented counter) are exactly 1, 2, ..., n in order — monotonically
increasing, never reused, never 0, starting at 1 — and the ids currently
mapped are a duplicate-free subset of the issued ids.  The u32 counter wraps
once 2^32 opens succeed, which is the only amendment to the claim. -/
theorem open_ids_sequential_below_wrap (ops : List FileOp)
    (hcount : countOpens ops < 2 ^ 32) :
    (runOps ops initialFileState).2 = List.range' 1 (countOpens ops) ∧
    (runOps ops initialFileState).2.Nodup ∧
    0 ∉ (runOps ops initialFileState).2 ∧
    ((runOps ops initialFileState).1.openFiles.map Prod.fst).Nodup ∧
    (∀ id ∈ (runOps ops initialFileState).1.openFiles.map Prod.fst,
      id ∈ (runOps ops initialFileState).2) := by
  have hids : (runOps ops initialFileState).2 =
      List.range' 1 (countOpens ops) := by
    rw [runOps_ids ops initialFileState, List.range'_eq_map_range]
    apply List.map_congr_left
    intro k hk
    rw [List.mem_range] at hk
    show (0 + k + 1) % 2 ^ 32 = 1 + k
    rw [Nat.mod_eq_of_lt (by omega)]
    omega
  obtain ⟨hkn, hsub⟩ := runOps_keys ops initialFileState (by
    show (List.nil.map Prod.fst).Nodup
    exact List.nodup_nil)
  refine ⟨hids, ?_, ?_, hkn, ?_⟩
  · rw [hids]
    exact List.nodup_range' 1 (countOpens ops)
  · rw [hids]
    simp [List.mem_range'_1]
  · intro id hid
    rcases hsub id hid with h | h
    · exact absurd h (by simp [initialFileState])
    · exact h

theorem open_ids_sequential_below_wrap_witness :
    (runOps [FileOp.opOpen "a" 3 true, FileOp.opOpen "b" 1 true,
        FileOp.opClose 1, FileOp.opOpen "c" 2 true] initialFileState).2 =
      [1, 2, 3] := by
  have h := (open_ids_sequential_below_wrap
    [FileOp.opOpen "a" 3 true, FileOp.opOpen "b" 1 true,
      FileOp.opClose 1, FileOp.opOpen "c" 2 true] (by decide)).1
  rw [h]
  rfl

theorem countOpens_replicate (n : Nat) :
    countOpens (List.replicate n (FileOp.opOpen "f" 3 true)) = n := by
  induction n with
  | zero => rfl
  | succ n ih =>
    rw [List.replicate_succ]
    show (if openOk 3 true then 1 else 0) + _ = n + 1
    rw [ih, show openOk 3 true = true from rfl]
    simp [Nat.add_comm]

/-- C6 counterexample: the id counter is a u32, so on the 2^32-th successful
open it wraps and the call issues id 0 — refuting "0 is never issued" (and
with it strict monotonicity and no-reuse) for unboundedly long traces. -/
theorem open_wraps_counter_issues_zero :
    0 ∈ (runOps (List.replicate (2 ^ 32) (FileOp.opOpen "f" 3 true))
        initialFileState).2 := by
  rw [runOps_ids, countOpens_replicate]
  refine List.mem_map.mpr ⟨2 ^ 32 - 1, ?_, ?_⟩
  · rw [List.mem_range]
    norm_num
  · show (initialFileState.fileCounter + (2 ^ 32 - 1) + 1) % 2 ^ 32 = 0
    show (0 + (2 ^ 32 - 1) + 1) % 2 ^ 32 = 0
    norm_num
